import Mathlib

/-!
Shallow embedding of the recommendation ranking engine of `src/app.py`:
the skill matcher `calculate_skill_match_score` and the selector
`sort_recommendations_by_match`, together with proofs of the specified
properties.  Python strings are modelled as lists of characters and
Python floats as rationals.
-/

namespace NextGen

/-- Characters of a Lean string literal, used to transcribe the Python
string constants. -/
def str (s : String) : List Char := s.data

/-- Python `str.lower` (ASCII case folding). -/
def toLowerStr (s : List Char) : List Char := s.map Char.toLower

/-- Python `str.strip`. -/
def trimStr (s : List Char) : List Char :=
  ((s.dropWhile Char.isWhitespace).reverse.dropWhile Char.isWhitespace).reverse

/-- Python `str.split(',')`. -/
def splitComma : List Char → List (List Char)
  | [] => [[]]
  | c :: cs =>
    match splitComma cs with
    | [] => [[c]]
    | t :: ts => if c = ',' then [] :: t :: ts else (c :: t) :: ts

/-- `isPre n h` holds when `n` is a leading segment of `h`. -/
def isPre : List Char → List Char → Bool
  | [], _ => true
  | _ :: _, [] => false
  | a :: as, b :: bs => a == b && isPre as bs

/-- Python substring test `n in h`. -/
def isSubstr (n : List Char) : List Char → Bool
  | [] => isPre n []
  | c :: t => isPre n (c :: t) || isSubstr n t

/-- Length of the longest common leading segment of two strings. -/
def commonPrefixLen : List Char → List Char → Nat
  | a :: as, b :: bs => if a = b then commonPrefixLen as bs + 1 else 0
  | _, _ => 0

/-- Keep the candidate block only when strictly longer: scanning index
pairs in ascending lexicographic order, this realises difflib's
tie-break (longest block, then earliest start in `a`, then earliest
start in `b`). -/
def chooseBlock (best cand : Nat × Nat × Nat) : Nat × Nat × Nat :=
  if best.2.2 < cand.2.2 then cand else best

/-- `difflib.SequenceMatcher(None, a, b).find_longest_match()` (no junk,
inputs short enough that autojunk is inert): the longest matching block
`(i, j, k)`, i.e. `a[i:i+k] == b[j:j+k]` with `k` maximal. -/
def findLongest (a b : List Char) : Nat × Nat × Nat :=
  (List.range a.length).foldl
    (fun best i =>
      (List.range b.length).foldl
        (fun best j => chooseBlock best (i, j, commonPrefixLen (a.drop i) (b.drop j)))
        best)
    (0, 0, 0)

/-- Total size of the matching blocks, as accumulated by
`get_matching_blocks`: recursion over the two segments flanking the
longest block, driven by a fuel argument that bounds the depth. -/
def totalMatchF : Nat → List Char → List Char → Nat
  | 0, _, _ => 0
  | fuel + 1, a, b =>
    let t := findLongest a b
    if t.2.2 = 0 then 0
    else
      totalMatchF fuel (a.take t.1) (b.take t.2.1) + t.2.2 +
        totalMatchF fuel (a.drop (t.1 + t.2.2)) (b.drop (t.2.1 + t.2.2))

/-- Total number of matched characters between `a` and `b`. -/
def totalMatch (a b : List Char) : Nat := totalMatchF (a.length + b.length) a b

/-- `difflib.SequenceMatcher(None, a, b).ratio()`:
`2.0 * M / T` with `M` the matched characters and `T` the total length
(`1.0` when both strings are empty). -/
def ratio (a b : List Char) : ℚ :=
  if a.length + b.length = 0 then 1
  else 2 * (totalMatch a b : ℚ) / ((a.length : ℚ) + (b.length : ℚ))

/-- A fold that preserves a predicate preserves it on the result. -/
theorem foldl_preserve {α β : Type} (P : β → Prop) (f : β → α → β) :
    ∀ (l : List α) (b : β), P b → (∀ acc x, x ∈ l → P acc → P (f acc x)) →
      P (l.foldl f b) := by
  intro l
  induction l with
  | nil => intro b hb _; simpa using hb
  | cons x xs ih =>
    intro b hb hf
    simp only [List.foldl_cons]
    exact ih _ (hf b x (by simp) hb) fun acc y hy h => hf acc y (by simp [hy]) h

theorem commonPrefixLen_le_left : ∀ a b : List Char, commonPrefixLen a b ≤ a.length := by
  intro a
  induction a with
  | nil => intro b; cases b <;> simp [commonPrefixLen]
  | cons x xs ih =>
    intro b
    cases b with
    | nil => simp [commonPrefixLen]
    | cons y ys =>
      simp only [commonPrefixLen, List.length_cons]
      split
      · exact Nat.succ_le_succ (ih ys)
      · exact Nat.zero_le _

theorem commonPrefixLen_le_right : ∀ a b : List Char, commonPrefixLen a b ≤ b.length := by
  intro a
  induction a with
  | nil => intro b; cases b <;> simp [commonPrefixLen]
  | cons x xs ih =>
    intro b
    cases b with
    | nil => simp [commonPrefixLen]
    | cons y ys =>
      simp only [commonPrefixLen, List.length_cons]
      split
      · exact Nat.succ_le_succ (ih ys)
      · exact Nat.zero_le _

/-- The block returned by `findLongest` fits inside both strings. -/
theorem findLongest_bound (a b : List Char) :
    (findLongest a b).1 + (findLongest a b).2.2 ≤ a.length ∧
      (findLongest a b).2.1 + (findLongest a b).2.2 ≤ b.length := by
  unfold findLongest
  apply foldl_preserve
    (P := fun t : Nat × Nat × Nat => t.1 + t.2.2 ≤ a.length ∧ t.2.1 + t.2.2 ≤ b.length)
  · simp
  · intro acc i hi hacc
    apply foldl_preserve
      (P := fun t : Nat × Nat × Nat => t.1 + t.2.2 ≤ a.length ∧ t.2.1 + t.2.2 ≤ b.length)
    · exact hacc
    · intro acc' j hj hacc'
      have hi' : i < a.length := List.mem_range.mp hi
      have hj' : j < b.length := List.mem_range.mp hj
      have h1 := commonPrefixLen_le_left (a.drop i) (b.drop j)
      have h2 := commonPrefixLen_le_right (a.drop i) (b.drop j)
      simp only [List.length_drop] at h1 h2
      unfold chooseBlock
      split
      · exact ⟨by simp only; omega, by simp only; omega⟩
      · exact hacc'

/-- The matched-character count is bounded by each string's length. -/
theorem totalMatchF_le (fuel : Nat) :
    ∀ a b : List Char, totalMatchF fuel a b ≤ a.length ∧ totalMatchF fuel a b ≤ b.length := by
  induction fuel with
  | zero => intro a b; simp [totalMatchF]
  | succ n ih =>
    intro a b
    simp only [totalMatchF]
    split
    · simp
    · have hb := findLongest_bound a b
      have h1 := ih (a.take (findLongest a b).1) (b.take (findLongest a b).2.1)
      have h2 := ih (a.drop ((findLongest a b).1 + (findLongest a b).2.2))
        (b.drop ((findLongest a b).2.1 + (findLongest a b).2.2))
      simp only [List.length_take, List.length_drop] at h1 h2
      constructor <;> omega

theorem totalMatch_le_left (a b : List Char) : totalMatch a b ≤ a.length :=
  (totalMatchF_le _ a b).1

theorem totalMatch_le_right (a b : List Char) : totalMatch a b ≤ b.length :=
  (totalMatchF_le _ a b).2

theorem ratio_nonneg (a b : List Char) : 0 ≤ ratio a b := by
  unfold ratio
  split
  · norm_num
  · apply div_nonneg
    · positivity
    · have : (0:ℚ) ≤ (a.length : ℚ) := by positivity
      have : (0:ℚ) ≤ (b.length : ℚ) := by positivity
      positivity

theorem ratio_le_one (a b : List Char) : ratio a b ≤ 1 := by
  unfold ratio
  split
  · exact le_refl 1
  · rename_i h
    have hpos : (0:ℚ) < (a.length : ℚ) + (b.length : ℚ) := by
      have h0 : 0 < a.length + b.length := Nat.pos_of_ne_zero h
      exact_mod_cast h0
    rw [div_le_one hpos]
    have h1 : (totalMatch a b : ℚ) ≤ (a.length : ℚ) := by
      exact_mod_cast totalMatch_le_left a b
    have h2 : (totalMatch a b : ℚ) ≤ (b.length : ℚ) := by
      exact_mod_cast totalMatch_le_right a b
    linarith

/-- The `skill_variations` table of `calculate_skill_match_score`. -/
def skill_variations : List (List Char × List (List Char)) :=
  [ (str "python", [str "py", str "python3", str "python programming"]),
    (str "javascript",
      [str "js", str "node.js", str "nodejs", str "react", str "angular", str "vue"]),
    (str "java", [str "java programming", str "core java", str "advanced java"]),
    (str "sql", [str "mysql", str "postgresql", str "database", str "rdbms"]),
    (str "machine learning",
      [str "ml", str "ai", str "artificial intelligence", str "deep learning"]),
    (str "data analysis", [str "data science", str "analytics", str "statistics"]),
    (str "web development", [str "html", str "css", str "frontend", str "backend"]),
    (str "communication", [str "english", str "presentation", str "speaking"]) ]

/-- `(req_skill == base_skill and user_skill in variations) or
(user_skill == base_skill and req_skill in variations)`. -/
def synPred (u r : List Char) (p : List Char × List (List Char)) : Bool :=
  (r == p.1 && p.2.contains u) || (u == p.1 && p.2.contains r)

/-- Body of the `for base_skill, variations in skill_variations.items()`
loop, for user skill `u` and required skill `r`. -/
def synStep (u r : List Char) (acc : ℚ) (p : List Char × List (List Char)) : ℚ :=
  if synPred u r p then max acc (95/100) else acc

/-- The inner-loop body for one user skill `u` against required skill
`r`: fuzzy similarity accepted above the 0.8 threshold, `elif` substring
containment at 0.9, then the synonym-table loop at 0.95. -/
def updateBest (best : ℚ) (u r : List Char) : ℚ :=
  let similarity := ratio u r
  let b1 :=
    if 4/5 < similarity then max best similarity
    else if isSubstr r u || isSubstr u r then max best (9/10)
    else best
  skill_variations.foldl (synStep u r) b1

/-- The `for user_skill in user_skills` loop computing `best_match_score`
for one required skill `r`: an exact match sets the score to 1.0 and
breaks out of the loop. -/
def bestFor (r : List Char) : List (List Char) → ℚ → ℚ
  | [], best => best
  | u :: us, best => if u == r then 1 else bestFor r us (updateBest best u r)

/-- `[s.strip().lower() for s in user_skills_string.split(',') if s.strip()]`. -/
def parseSkills (s : List Char) : List (List Char) :=
  ((splitComma s).filter fun t => !(trimStr t).isEmpty).map fun t => toLowerStr (trimStr t)

/-- `[s.strip().lower() for s in required_skills_list if s.strip()]`. -/
def parseReq (l : List (List Char)) : List (List Char) :=
  (l.filter fun t => !(trimStr t).isEmpty).map fun t => toLowerStr (trimStr t)

/-- The user-profile record consumed by the engine.  A dict key that is
missing is modelled by the falsy default the code substitutes for it
(the empty string). -/
structure Profile where
  skills : List Char
  qualification : List Char
  area_of_interest : List Char
  prior_internship : List Char
deriving DecidableEq

def eduKeywords : List (List Char) :=
  [str "engineering", str "btech", str "computer", str "it", str "technology"]

def job_sectors : List (List Char) :=
  [str "technology", str "finance", str "healthcare", str "engineering", str "management"]

/-- `user_profile.get('qualification')` is truthy and holds one of the
technical-education keywords. -/
def qualifiesEdu (q : List Char) : Bool :=
  !q.isEmpty && eduKeywords.any (fun edu => isSubstr edu (toLowerStr q))

/-- `user_profile.get('area_of_interest')` is truthy and holds one of
the sector keywords. -/
def qualifiesSector (i : List Char) : Bool :=
  !i.isEmpty && job_sectors.any (fun sector => isSubstr sector (toLowerStr i))

/-- The bonus-points block of `calculate_skill_match_score`. -/
def bonusPoints : Option Profile → ℚ
  | none => 0
  | some p =>
      (if qualifiesEdu p.qualification then 5 else 0)
    + (if qualifiesSector p.area_of_interest then 3 else 0)
    + (if p.prior_internship == str "yes" then 7 else 0)

/-- Round-half-even to an integer, as Python's `round`. -/
def rhe (q : ℚ) : ℤ :=
  if q - ⌊q⌋ < 1/2 then ⌊q⌋
  else if 1/2 < q - ⌊q⌋ then ⌊q⌋ + 1
  else if ⌊q⌋ % 2 = 0 then ⌊q⌋ else ⌊q⌋ + 1

/-- Python `round(q, 1)`. -/
def pyRound1 (q : ℚ) : ℚ := (rhe (10 * q) : ℚ) / 10

/-- `calculate_skill_match_score` of `src/app.py`. -/
def calculate_skill_match_score (user_skills_string : List Char)
    (required_skills_list : List (List Char)) (user_profile : Option Profile) : ℚ :=
  if user_skills_string.isEmpty || required_skills_list.isEmpty then 0
  else
    let user_skills := parseSkills user_skills_string
    let required_skills := parseReq required_skills_list
    if user_skills.isEmpty || required_skills.isEmpty then 0
    else
      let match_score := (required_skills.map fun r => bestFor r user_skills 0).sum
      let total_weight : ℚ := required_skills.length
      let percentage := match_score / total_weight * 100
      let bonus_points := bonusPoints user_profile
      pyRound1 (min 100 (percentage + bonus_points))

/-- `(u, r)` is a pair of the synonym table. -/
def synAny (u r : List Char) : Bool := skill_variations.any (synPred u r)

/-- `r` is contained in `u` or `u` is contained in `r`. -/
def substrPair (u r : List Char) : Bool := isSubstr r u || isSubstr u r

/-- The value one user skill `u` contributes for required skill `r`, as
the code computes it: the substring rule lives on the `elif` branch of
the similarity test, the synonym rule is an independent maximum. -/
def candVal (u r : List Char) : ℚ :=
  max (if 4/5 < ratio u r then ratio u r else if substrPair u r then 9/10 else 0)
    (if synAny u r then 95/100 else 0)

/-- The value one user skill `u` contributes for required skill `r` as
claim C2 words it: the maximum of three independently computed rules. -/
def claimCand (u r : List Char) : ℚ :=
  max (if 4/5 < ratio u r then ratio u r else 0)
    (max (if substrPair u r then 9/10 else 0) (if synAny u r then 95/100 else 0))

/-- Maximum of `f` over a list of user skills (0 when empty). -/
def maxOver (us : List (List Char)) (f : List Char → ℚ) : ℚ := (us.map f).foldr max 0

theorem synStep_foldl_any (u r : List Char) :
    ∀ (L : List (List Char × List (List Char))) (b : ℚ),
      L.foldl (synStep u r) b = if L.any (synPred u r) then max b (95/100) else b := by
  intro L
  induction L with
  | nil => intro b; simp
  | cons p L ih =>
    intro b
    simp only [List.foldl_cons, List.any_cons]
    by_cases hp : synPred u r p = true
    · have hs : synStep u r b p = max b (95/100) := by simp [synStep, hp]
      rw [hs, ih]
      by_cases hL : L.any (synPred u r) = true
      · simp [hp, hL, max_assoc]
      · simp [hp, hL]
    · rw [Bool.not_eq_true] at hp
      have hs : synStep u r b p = b := by simp [synStep, hp]
      rw [hs, ih]
      simp only [hp, Bool.false_or]

theorem updateBest_eq_max {b : ℚ} (hb : 0 ≤ b) (u r : List Char) :
    updateBest b u r = max b (candVal u r) := by
  have e1 : max (9/10 : ℚ) 0 = 9/10 := max_eq_left (by norm_num)
  have e2 : max (0:ℚ) (95/100) = 95/100 := max_eq_right (by norm_num)
  have e4 : max (ratio u r) 0 = ratio u r := max_eq_left (ratio_nonneg u r)
  have e5 : max b 0 = b := max_eq_left hb
  unfold updateBest candVal
  rw [synStep_foldl_any]
  simp only [substrPair, synAny]
  by_cases h1 : 4/5 < ratio u r <;> by_cases h2 : (isSubstr r u || isSubstr u r) = true <;>
    by_cases h3 : skill_variations.any (synPred u r) = true <;>
      simp only [h1, h2, h3, if_true, if_false, max_self, e1, e2, e4, e5, max_assoc,
        not_false_iff, Bool.false_eq_true, Bool.true_eq_false, ite_true, ite_false,
        eq_self_iff_true]

theorem updateBest_ge {b : ℚ} (hb : 0 ≤ b) (u r : List Char) : b ≤ updateBest b u r := by
  rw [updateBest_eq_max hb]
  exact le_max_left _ _

theorem candVal_nonneg (u r : List Char) : 0 ≤ candVal u r := by
  unfold candVal
  have h := ratio_nonneg u r
  split_ifs <;> simp [le_max_iff] <;> norm_num [h]

theorem candVal_le_one (u r : List Char) : candVal u r ≤ 1 := by
  unfold candVal
  have h := ratio_le_one u r
  split_ifs <;> simp [max_le_iff] <;> norm_num [h]

theorem maxOver_nonneg (us : List (List Char)) (f : List Char → ℚ) :
    0 ≤ maxOver us f := by
  unfold maxOver
  induction us with
  | nil => simp
  | cons u us ih => simp only [List.map_cons, List.foldr_cons]; exact le_max_of_le_right ih

theorem maxOver_cons (u : List Char) (us : List (List Char)) (f : List Char → ℚ) :
    maxOver (u :: us) f = max (f u) (maxOver us f) := rfl

/-- Accumulator form of the inner loop: with no exact match among the
user skills, the loop computes the running maximum of the per-user
candidate values. -/
theorem bestFor_acc (r : List Char) :
    ∀ (us : List (List Char)) (b : ℚ), 0 ≤ b → (∀ u ∈ us, u ≠ r) →
      bestFor r us b = max b (maxOver us (fun u => candVal u r)) := by
  intro us
  induction us with
  | nil =>
    intro b hb _
    simp [bestFor, maxOver, max_eq_left hb]
  | cons u us ih =>
    intro b hb hne
    have hur : (u == r) = false := by
      simp only [beq_eq_false_iff_ne, ne_eq]
      exact hne u (by simp)
    simp only [bestFor, hur, Bool.false_eq_true, if_false]
    rw [ih _ (le_trans hb (updateBest_ge hb u r)) fun v hv => hne v (by simp [hv]),
      updateBest_eq_max hb, maxOver_cons, max_assoc]

theorem bestFor_bounds (r : List Char) :
    ∀ (us : List (List Char)) (b : ℚ), 0 ≤ b → b ≤ 1 →
      0 ≤ bestFor r us b ∧ bestFor r us b ≤ 1 := by
  intro us
  induction us with
  | nil => intro b hb hb1; exact ⟨hb, hb1⟩
  | cons u us ih =>
    intro b hb hb1
    simp only [bestFor]
    by_cases hur : (u == r) = true
    · simp only [hur, if_true]
      norm_num
    · rw [Bool.not_eq_true] at hur
      simp only [hur, Bool.false_eq_true, if_false]
      refine ih _ ?_ ?_
      · rw [updateBest_eq_max hb]
        exact le_max_of_le_left hb
      · rw [updateBest_eq_max hb]
        exact max_le hb1 (candVal_le_one u r)

theorem sum_bestFor_bounds (us : List (List Char)) :
    ∀ rs : List (List Char),
      0 ≤ (rs.map fun r => bestFor r us 0).sum ∧
        (rs.map fun r => bestFor r us 0).sum ≤ (rs.length : ℚ) := by
  intro rs
  induction rs with
  | nil => simp
  | cons r rs ih =>
    have hb := bestFor_bounds r us 0 le_rfl (by norm_num)
    simp only [List.map_cons, List.sum_cons, List.length_cons]
    constructor
    · have := ih.1
      linarith [hb.1]
    · have := ih.2
      push_cast
      linarith [hb.2]

theorem bonusPoints_nonneg (p : Option Profile) : 0 ≤ bonusPoints p := by
  cases p with
  | none => simp [bonusPoints]
  | some p =>
    simp only [bonusPoints]
    split_ifs <;> norm_num

theorem rhe_mono {x y : ℚ} (h : x ≤ y) : rhe x ≤ rhe y := by
  have hff : ⌊x⌋ ≤ ⌊y⌋ := Int.floor_le_floor h
  rcases lt_or_le ⌊x⌋ ⌊y⌋ with hlt | hle
  · have h1 : rhe x ≤ ⌊x⌋ + 1 := by unfold rhe; split_ifs <;> omega
    have h2 : ⌊y⌋ ≤ rhe y := by unfold rhe; split_ifs <;> omega
    omega
  · have heq : ⌊y⌋ = ⌊x⌋ := le_antisymm hle hff
    have hfrac : y - (⌊y⌋ : ℚ) = y - (⌊x⌋ : ℚ) := by rw [heq]
    unfold rhe
    rw [heq]
    split_ifs <;> first | omega | (exfalso; linarith)

theorem rhe_zero : rhe 0 = 0 := by
  unfold rhe
  norm_num

theorem rhe_thousand : rhe 1000 = 1000 := by
  unfold rhe
  norm_num

theorem pyRound1_mono {x y : ℚ} (h : x ≤ y) : pyRound1 x ≤ pyRound1 y := by
  unfold pyRound1
  have h10 : rhe (10 * x) ≤ rhe (10 * y) := rhe_mono (by linarith)
  have h10' : ((rhe (10 * x) : ℤ) : ℚ) ≤ ((rhe (10 * y) : ℤ) : ℚ) := by exact_mod_cast h10
  linarith

theorem pyRound1_zero : pyRound1 0 = 0 := by
  unfold pyRound1
  rw [show (10:ℚ) * 0 = 0 by norm_num, rhe_zero]
  norm_num

theorem pyRound1_hundred : pyRound1 100 = 100 := by
  unfold pyRound1
  rw [show (10:ℚ) * 100 = 1000 by norm_num, rhe_thousand]
  norm_num

theorem pyRound1_bounds {q : ℚ} (h0 : 0 ≤ q) (h100 : q ≤ 100) :
    0 ≤ pyRound1 q ∧ pyRound1 q ≤ 100 := by
  constructor
  · have := pyRound1_mono h0
    rwa [pyRound1_zero] at this
  · have := pyRound1_mono h100
    rwa [pyRound1_hundred] at this

/-- The returned score is within `[0, 100]` for every input. -/
theorem calculate_skill_match_score_bounds (u : List Char) (rs : List (List Char))
    (p : Option Profile) :
    0 ≤ calculate_skill_match_score u rs p ∧ calculate_skill_match_score u rs p ≤ 100 := by
  unfold calculate_skill_match_score
  split_ifs with h1
  · norm_num
  · simp only [Bool.or_eq_true, List.isEmpty_iff]
    by_cases h2 : parseSkills u = [] ∨ parseReq rs = []
    · simp only [h2, if_true]
      norm_num
    · simp only [h2, if_false]
      push_neg at h2
      have hlen : 0 < (parseReq rs).length := by
        cases hP : parseReq rs with
        | nil => exact absurd hP h2.2
        | cons a l => simp [hP]
      have hlenQ : (0:ℚ) < ((parseReq rs).length : ℚ) := by exact_mod_cast hlen
      have hsum := sum_bestFor_bounds (parseSkills u) (parseReq rs)
      have hbon := bonusPoints_nonneg p
      have hpct0 : 0 ≤ ((parseReq rs).map fun r => bestFor r (parseSkills u) 0).sum /
          ((parseReq rs).length : ℚ) * 100 := by
        have := hsum.1
        positivity
      have hmin0 : (0:ℚ) ≤ min 100 (((parseReq rs).map fun r => bestFor r (parseSkills u) 0).sum /
          ((parseReq rs).length : ℚ) * 100 + bonusPoints p) := by
        have := le_min (by norm_num : (0:ℚ) ≤ 100) (by linarith : (0:ℚ) ≤
          ((parseReq rs).map fun r => bestFor r (parseSkills u) 0).sum /
            ((parseReq rs).length : ℚ) * 100 + bonusPoints p)
        exact this
      have hmin100 : min 100 (((parseReq rs).map fun r => bestFor r (parseSkills u) 0).sum /
          ((parseReq rs).length : ℚ) * 100 + bonusPoints p) ≤ 100 := min_le_left _ _
      exact pyRound1_bounds hmin0 hmin100

/-- The score degrades to 0 on empty or normalization-empty inputs. -/
theorem calculate_skill_match_score_zero (u : List Char) (rs : List (List Char))
    (p : Option Profile)
    (h : u = [] ∨ rs = [] ∨ parseSkills u = [] ∨ parseReq rs = []) :
    calculate_skill_match_score u rs p = 0 := by
  unfold calculate_skill_match_score
  split_ifs with h1
  · rfl
  · simp only [Bool.or_eq_true, List.isEmpty_iff] at h1 ⊢
    rcases h with h | h | h | h
    · exact absurd (Or.inl h) h1
    · exact absurd (Or.inr h) h1
    · rw [if_pos (Or.inl h)]
    · rw [if_pos (Or.inr h)]

/-- A larger bonus never yields a smaller final score. -/
theorem calculate_skill_match_score_mono_bonus (u : List Char) (rs : List (List Char))
    {p q : Option Profile} (h : bonusPoints p ≤ bonusPoints q) :
    calculate_skill_match_score u rs p ≤ calculate_skill_match_score u rs q := by
  unfold calculate_skill_match_score
  split_ifs with h1
  · exact le_rfl
  · simp only [Bool.or_eq_true, List.isEmpty_iff]
    by_cases h2 : parseSkills u = [] ∨ parseReq rs = []
    · rw [if_pos h2, if_pos h2]
    · rw [if_neg h2, if_neg h2]
      apply pyRound1_mono
      apply min_le_min le_rfl
      linarith

/-- An internship/opportunity posting as the selector consumes it: its
`type` (category), its `skills` (the required-skill list) and — standing
for the display fields the algorithm never reads — an opaque payload. -/
structure Posting where
  type : List Char
  skills : List (List Char)
  payload : Nat
deriving DecidableEq

/-- A posting together with the `skill_match_score` the selector stores
on it. -/
structure ScoredPosting where
  post : Posting
  skill_match_score : ℚ
deriving DecidableEq

/-- `user.get('skills', '') if user else ''`. -/
def userSkillsOf : Option Profile → List Char
  | none => []
  | some p => p.skills

/-- Scoring of one candidate inside the selector's first loop:
`calculate_skill_match_score`, then the government boost
`min(100, match_score + 10)` overwriting the stored score. -/
def scoreRec (user : Option Profile) (r : Posting) : ScoredPosting :=
  let match_score := calculate_skill_match_score (userSkillsOf user) r.skills user
  if r.type == str "government" then ⟨r, min 100 (match_score + 10)⟩ else ⟨r, match_score⟩

/-- `rec.get('type') == 'government'`. -/
def isGovS (s : ScoredPosting) : Bool := s.post.type == str "government"

/-- Descending-by-score comparison used by the three `sort(...,
reverse=True)` calls (a stable sort; ties keep list order). -/
def sRel (a b : ScoredPosting) : Prop := b.skill_match_score ≤ a.skill_match_score

instance : DecidableRel sRel := fun a b =>
  inferInstanceAs (Decidable (b.skill_match_score ≤ a.skill_match_score))

instance : IsTotal ScoredPosting sRel :=
  ⟨fun a b => (le_total b.skill_match_score a.skill_match_score).elim Or.inl Or.inr⟩

instance : IsTrans ScoredPosting sRel :=
  ⟨fun _ _ _ h1 h2 => le_trans h2 h1⟩

/-- Body of the `for score, rec in government_recs` loop: append while
`gov_count < 3`. -/
def govStep (a : List ScoredPosting × Nat) (x : ScoredPosting) : List ScoredPosting × Nat :=
  if a.2 < 3 then (a.1 ++ [x], a.2 + 1) else a

/-- Body of the `for score, rec in service_recs` loop: append while
`len(top_recommendations) < 5 and service_count < 3`. -/
def svcStep (a : List ScoredPosting × Nat) (x : ScoredPosting) : List ScoredPosting × Nat :=
  if a.1.length < 5 && a.2 < 3 then (a.1 ++ [x], a.2 + 1) else a

/-- Body of the leftover-government loop: append while
`len(top_recommendations) < 5`. -/
def fillStep (a : List ScoredPosting) (x : ScoredPosting) : List ScoredPosting :=
  if a.length < 5 then a ++ [x] else a

/-- The quota assembly of `sort_recommendations_by_match`: up to 3 top
government entries, service entries while under 5 and under 3, then —
when still under 5 and government candidates remain unused — leftover
government entries while under 5. -/
def buildTop (govL svcL : List ScoredPosting) : List ScoredPosting :=
  let s1 := govL.foldl govStep ([], 0)
  let s2 := svcL.foldl svcStep (s1.1, 0)
  if s2.1.length < 5 && decide (s1.2 < govL.length) then
    (govL.drop s1.2).foldl fillStep s2.1
  else s2.1

/-- `sort_recommendations_by_match` of `src/app.py`. -/
def sort_recommendations_by_match (recommendations : List Posting)
    (user : Option Profile) : List ScoredPosting :=
  let scored := recommendations.map (scoreRec user)
  let government_recs := List.insertionSort sRel (scored.filter isGovS)
  let service_recs := List.insertionSort sRel (scored.filter fun s => !isGovS s)
  let top := buildTop government_recs service_recs
  (List.insertionSort sRel top).take 5

/-- Category test on a raw posting. -/
def isGovP (r : Posting) : Bool := r.type == str "government"

theorem scoreRec_post (user : Option Profile) (r : Posting) : (scoreRec user r).post = r := by
  unfold scoreRec
  split <;> rfl

theorem isGovS_scoreRec (user : Option Profile) (r : Posting) :
    isGovS (scoreRec user r) = isGovP r := by
  unfold isGovS isGovP
  rw [scoreRec_post]

theorem foldl_govStep : ∀ (l : List ScoredPosting) (acc : List ScoredPosting) (c : Nat),
    l.foldl govStep (acc, c) = (acc ++ l.take (3 - c), c + min l.length (3 - c)) := by
  intro l
  induction l with
  | nil => intro acc c; simp
  | cons x xs ih =>
    intro acc c
    simp only [List.foldl_cons]
    by_cases hc : c < 3
    · have hstep : govStep (acc, c) x = (acc ++ [x], c + 1) := by simp [govStep, hc]
      rw [hstep, ih]
      obtain ⟨k, hk⟩ : ∃ k, 3 - c = k + 1 := ⟨2 - c, by omega⟩
      rw [hk, show 3 - (c + 1) = k from by omega]
      simp only [List.take_succ_cons, List.length_cons, List.append_assoc,
        List.singleton_append, Prod.mk.injEq]
      exact ⟨trivial, by omega⟩
    · have hstep : govStep (acc, c) x = (acc, c) := by simp [govStep, hc]
      rw [hstep, ih, show 3 - c = 0 from by omega]
      simp

theorem foldl_svcStep : ∀ (l : List ScoredPosting) (acc : List ScoredPosting) (c : Nat),
    l.foldl svcStep (acc, c) =
      (acc ++ l.take (min (3 - c) (5 - acc.length)),
        c + min l.length (min (3 - c) (5 - acc.length))) := by
  intro l
  induction l with
  | nil => intro acc c; simp
  | cons x xs ih =>
    intro acc c
    simp only [List.foldl_cons]
    by_cases hg : acc.length < 5 ∧ c < 3
    · have hstep : svcStep (acc, c) x = (acc ++ [x], c + 1) := by
        simp [svcStep, hg.1, hg.2]
      rw [hstep, ih]
      obtain ⟨k, hk⟩ : ∃ k, min (3 - c) (5 - acc.length) = k + 1 :=
        ⟨min (3 - c) (5 - acc.length) - 1, by omega⟩
      have h1 : min (3 - (c + 1)) (5 - (acc ++ [x]).length) = k := by
        simp only [List.length_append, List.length_singleton]
        omega
      rw [h1, hk, List.take_succ_cons]
      simp only [List.append_assoc, List.singleton_append, List.length_cons, Prod.mk.injEq]
      exact ⟨trivial, by omega⟩
    · have hstep : svcStep (acc, c) x = (acc, c) := by
        simp only [svcStep]
        rw [if_neg]
        simp only [Bool.and_eq_true, decide_eq_true_eq]
        exact hg
      rw [hstep, ih]
      have h0 : min (3 - c) (5 - acc.length) = 0 := by omega
      rw [h0]
      simp

theorem foldl_fillStep : ∀ (l acc : List ScoredPosting),
    l.foldl fillStep acc = acc ++ l.take (5 - acc.length) := by
  intro l
  induction l with
  | nil => intro acc; simp
  | cons x xs ih =>
    intro acc
    simp only [List.foldl_cons]
    by_cases hl : acc.length < 5
    · have hstep : fillStep acc x = acc ++ [x] := by simp [fillStep, hl]
      rw [hstep, ih]
      obtain ⟨k, hk⟩ : ∃ k, 5 - acc.length = k + 1 := ⟨4 - acc.length, by omega⟩
      have h1 : 5 - (acc ++ [x]).length = k := by
        simp only [List.length_append, List.length_singleton]
        omega
      rw [h1, hk, List.take_succ_cons, List.append_assoc, List.singleton_append]
    · have hstep : fillStep acc x = acc := by simp [fillStep, hl]
      rw [hstep, ih, show 5 - acc.length = 0 from by omega]
      simp

/-- Closed form of the quota assembly: the first three government
entries, then service entries under the caps, then leftover government
entries filling up to five. -/
theorem buildTop_struct (G S : List ScoredPosting) :
    buildTop G S =
      G.take 3 ++ S.take (min 3 (5 - min 3 G.length)) ++
        (G.drop 3).take
          (5 - (min 3 G.length + min (min 3 (5 - min 3 G.length)) S.length)) := by
  unfold buildTop
  simp only [foldl_govStep, foldl_svcStep, foldl_fillStep, List.nil_append, Nat.sub_zero,
    Nat.zero_add, List.length_take, List.length_append]
  split_ifs with hcond
  · simp only [Bool.and_eq_true, decide_eq_true_eq] at hcond
    have h3 : min G.length 3 = 3 := by omega
    rw [h3, List.append_assoc]
  · rw [Bool.and_eq_true, not_and_or] at hcond
    simp only [decide_eq_true_eq] at hcond
    rcases hcond with hlen | hgov
    · rw [show 5 - (min 3 G.length + min (min 3 (5 - min 3 G.length)) S.length) = 0 from
        by omega]
      simp
    · have hG3 : G.length ≤ 3 := by omega
      rw [List.drop_eq_nil_of_le hG3]
      simp

theorem buildTop_length_le (G S : List ScoredPosting) : (buildTop G S).length ≤ 5 := by
  rw [buildTop_struct]
  simp only [List.length_append, List.length_take, List.length_drop]
  omega

theorem buildTop_subset (G S : List ScoredPosting) {x : ScoredPosting}
    (hx : x ∈ buildTop G S) : x ∈ G ∨ x ∈ S := by
  rw [buildTop_struct] at hx
  rcases List.mem_append.mp hx with h | h
  · rcases List.mem_append.mp h with h | h
    · exact Or.inl (List.take_subset _ _ h)
    · exact Or.inr (List.take_subset _ _ h)
  · exact Or.inl (List.drop_subset _ _ (List.take_subset _ _ h))

theorem buildTop_of_big {G S : List ScoredPosting} (hG : 3 ≤ G.length) (hS : 3 ≤ S.length) :
    buildTop G S = G.take 3 ++ S.take 2 := by
  rw [buildTop_struct]
  have h1 : min 3 G.length = 3 := by omega
  rw [h1]
  have h2 : min 3 (5 - 3) = 2 := by norm_num
  rw [h2]
  have h3 : min 2 S.length = 2 := by omega
  rw [h3, show 5 - (3 + 2) = 0 from by norm_num]
  simp

/-- The government bucket, as the selector builds it. -/
def govBucket (recs : List Posting) (user : Option Profile) : List ScoredPosting :=
  List.insertionSort sRel ((recs.map (scoreRec user)).filter isGovS)

/-- The service bucket, as the selector builds it. -/
def svcBucket (recs : List Posting) (user : Option Profile) : List ScoredPosting :=
  List.insertionSort sRel ((recs.map (scoreRec user)).filter fun s => !isGovS s)

theorem sort_recommendations_by_match_eq (recs : List Posting) (user : Option Profile) :
    sort_recommendations_by_match recs user =
      (List.insertionSort sRel (buildTop (govBucket recs user) (svcBucket recs user))).take 5 :=
  rfl

theorem govBucket_length (recs : List Posting) (user : Option Profile) :
    (govBucket recs user).length = recs.countP isGovP := by
  unfold govBucket
  rw [List.length_insertionSort, ← List.countP_eq_length_filter, List.countP_map]
  simp only [Function.comp_def, isGovS_scoreRec]

theorem svcBucket_length (recs : List Posting) (user : Option Profile) :
    (svcBucket recs user).length = recs.countP (fun r => !isGovP r) := by
  unfold svcBucket
  rw [List.length_insertionSort, ← List.countP_eq_length_filter, List.countP_map]
  simp only [Function.comp_def, isGovS_scoreRec]

theorem mem_govBucket_isGov {recs : List Posting} {user : Option Profile} {s : ScoredPosting}
    (h : s ∈ govBucket recs user) : isGovS s = true := by
  unfold govBucket at h
  have h2 := (List.perm_insertionSort sRel _).subset h
  exact List.of_mem_filter h2

theorem mem_svcBucket_notGov {recs : List Posting} {user : Option Profile} {s : ScoredPosting}
    (h : s ∈ svcBucket recs user) : isGovS s = false := by
  unfold svcBucket at h
  have h2 := (List.perm_insertionSort sRel _).subset h
  have := List.of_mem_filter h2
  simpa using this

theorem mem_bucket_scored {recs : List Posting} {user : Option Profile} {s : ScoredPosting}
    (h : s ∈ govBucket recs user ∨ s ∈ svcBucket recs user) :
    ∃ r ∈ recs, s = scoreRec user r := by
  have hsc : s ∈ recs.map (scoreRec user) := by
    rcases h with h | h
    · have h2 := (List.perm_insertionSort sRel _).subset h
      exact List.mem_of_mem_filter h2
    · have h2 := (List.perm_insertionSort sRel _).subset h
      exact List.mem_of_mem_filter h2
  rcases List.mem_map.mp hsc with ⟨r, hr, hsr⟩
  exact ⟨r, hr, hsr.symm⟩

theorem mem_sort_recommendations {recs : List Posting} {user : Option Profile}
    {s : ScoredPosting} (hs : s ∈ sort_recommendations_by_match recs user) :
    ∃ r ∈ recs, s = scoreRec user r := by
  rw [sort_recommendations_by_match_eq] at hs
  have h1 := List.take_subset 5 _ hs
  have h2 := (List.perm_insertionSort sRel _).subset h1
  exact mem_bucket_scored (buildTop_subset _ _ h2)

theorem scoreRec_score (user : Option Profile) (r : Posting) :
    (scoreRec user r).skill_match_score =
      if isGovP r = true
      then min 100 (calculate_skill_match_score (userSkillsOf user) r.skills user + 10)
      else calculate_skill_match_score (userSkillsOf user) r.skills user := by
  unfold scoreRec isGovP
  by_cases h : (r.type == str "government") = true <;> simp [h]

theorem orderedInsert_cons_of_rel (x : ScoredPosting) (l : List ScoredPosting)
    (h : ∀ y ∈ l.head?, sRel x y) : List.orderedInsert sRel x l = x :: l := by
  cases l with
  | nil => rfl
  | cons a t =>
    have ha : sRel x a := h a rfl
    simp [List.orderedInsert, ha]

theorem orderedInsert_append_not (x : ScoredPosting) :
    ∀ (F G' : List ScoredPosting), (∀ a ∈ F, ¬ sRel x a) →
      List.orderedInsert sRel x (F ++ G') = F ++ List.orderedInsert sRel x G' := by
  intro F
  induction F with
  | nil => intro G' _; simp
  | cons a t ih =>
    intro G' h
    simp only [List.cons_append, List.orderedInsert, List.append_eq]
    rw [if_neg (h a (by simp)), ih G' (fun b hb => h b (by simp [hb]))]

/-- Sorting a list whose scores take only the two values `hi > lo` moves
the `hi` entries to the front and keeps the original relative order
inside each group (stability of the insertion sort). -/
theorem insertionSort_two_valued {hi lo : ℚ} (hlohi : lo < hi) :
    ∀ l : List ScoredPosting,
      (∀ s ∈ l, s.skill_match_score = hi ∨ s.skill_match_score = lo) →
      List.insertionSort sRel l =
        l.filter (fun s => decide (s.skill_match_score = hi)) ++
          l.filter (fun s => decide (s.skill_match_score = lo)) := by
  intro l
  induction l with
  | nil => intro _; rfl
  | cons x xs ih =>
    intro h
    have hx := h x (by simp)
    have hxs : ∀ s ∈ xs, s.skill_match_score = hi ∨ s.skill_match_score = lo :=
      fun s hs => h s (by simp [hs])
    simp only [List.insertionSort]
    rw [ih hxs]
    rcases hx with hx | hx
    · rw [orderedInsert_cons_of_rel x _ ?hd]
      case hd =>
        intro y hy
        have hy' := List.mem_of_mem_head? hy
        show sRel x y
        unfold sRel
        rw [hx]
        rcases List.mem_append.mp hy' with h' | h'
        · have := List.of_mem_filter h'
          have hsc : y.skill_match_score = hi := by simpa using this
          rw [hsc]
        · have := List.of_mem_filter h'
          have hsc : y.skill_match_score = lo := by simpa using this
          rw [hsc]
          exact hlohi.le
      rw [List.filter_cons_of_pos (by simpa using hx),
        List.filter_cons_of_neg (by simp [hx]; exact hlohi.ne')]
      simp
    · rw [orderedInsert_append_not x _ _ ?hF]
      case hF =>
        intro a ha
        have := List.of_mem_filter ha
        have hsc : a.skill_match_score = hi := by simpa using this
        unfold sRel
        rw [hx, hsc]
        exact not_le.mpr hlohi
      rw [orderedInsert_cons_of_rel x _ ?hd]
      case hd =>
        intro y hy
        have hy' := List.mem_of_mem_head? hy
        have := List.of_mem_filter hy'
        have hsc : y.skill_match_score = lo := by simpa using this
        show sRel x y
        unfold sRel
        rw [hx, hsc]
      rw [List.filter_cons_of_neg (by simp [hx]; exact fun hcon => absurd hcon hlohi.ne),
        List.filter_cons_of_pos (by simpa using hx)]

/-- Sorting a list with all-equal scores is the identity. -/
theorem insertionSort_const {c : ℚ} (l : List ScoredPosting)
    (h : ∀ s ∈ l, s.skill_match_score = c) : List.insertionSort sRel l = l := by
  have h2v := insertionSort_two_valued (show c - 1 < c by linarith) l
    (fun s hs => Or.inl (h s hs))
  have h1 : l.filter (fun s => decide (s.skill_match_score = c)) = l :=
    List.filter_eq_self.mpr (by intro s hs; simpa using h s hs)
  have h2 : l.filter (fun s => decide (s.skill_match_score = c - 1)) = [] := by
    rw [List.filter_eq_nil_iff]
    intro s hs
    have := h s hs
    simp only [this, decide_eq_true_eq]
    intro hcon
    have : (0:ℚ) = -1 := by linarith
    norm_num at this
  rw [h2v, h1, h2, List.append_nil]

theorem scoreRec_none_score (r : Posting) :
    (scoreRec none r).skill_match_score = if isGovP r = true then 10 else 0 := by
  rw [scoreRec_score]
  have h0 : calculate_skill_match_score (userSkillsOf none) r.skills none = 0 :=
    calculate_skill_match_score_zero _ _ _ (Or.inl rfl)
  rw [h0]
  split_ifs
  · rw [zero_add]
    exact min_eq_right (by norm_num)
  · rfl

theorem mem_scored_none_score {recs : List Posting} {s : ScoredPosting}
    (hs : s ∈ recs.map (scoreRec none)) :
    s.skill_match_score = if isGovS s = true then 10 else 0 := by
  rcases List.mem_map.mp hs with ⟨r, _, rfl⟩
  rw [scoreRec_none_score, isGovS_scoreRec]

theorem map_post_filter_gov (recs : List Posting) (user : Option Profile) :
    ((recs.map (scoreRec user)).filter isGovS).map (fun s => s.post) =
      recs.filter isGovP := by
  have hfun : (isGovS ∘ scoreRec user) = isGovP := funext fun r => isGovS_scoreRec user r
  have hpost : ((fun s : ScoredPosting => s.post) ∘ scoreRec user) = id :=
    funext fun r => scoreRec_post user r
  rw [List.filter_map, hfun, List.map_map, hpost, List.map_id]

theorem map_post_filter_nongov (recs : List Posting) (user : Option Profile) :
    ((recs.map (scoreRec user)).filter (fun s => !isGovS s)).map (fun s => s.post) =
      recs.filter (fun r => !isGovP r) := by
  have hfun : ((fun s => !isGovS s) ∘ scoreRec user) = (fun r => !isGovP r) :=
    funext fun r => by simp [Function.comp, isGovS_scoreRec]
  have hpost : ((fun s : ScoredPosting => s.post) ∘ scoreRec user) = id :=
    funext fun r => scoreRec_post user r
  rw [List.filter_map, hfun, List.map_map, hpost, List.map_id]

/-- With no profile, the selector's output splits as selected government
entries (in original order) followed by selected service entries (in
original order). -/
theorem sort_none_struct (recs : List Posting) :
    ∃ gpart spart,
      sort_recommendations_by_match recs none = gpart ++ spart ∧
      List.Sublist gpart ((recs.map (scoreRec none)).filter isGovS) ∧
      List.Sublist spart ((recs.map (scoreRec none)).filter (fun s => !isGovS s)) := by
  have hGscore : ∀ s ∈ (recs.map (scoreRec none)).filter isGovS,
      s.skill_match_score = 10 := by
    intro s hs
    have h1 : isGovS s = true := List.of_mem_filter hs
    have h2 := mem_scored_none_score (List.mem_of_mem_filter hs)
    rwa [h1, if_pos rfl] at h2
  have hSscore : ∀ s ∈ (recs.map (scoreRec none)).filter (fun s => !isGovS s),
      s.skill_match_score = 0 := by
    intro s hs
    have h1 : (!isGovS s) = true := (List.mem_filter.mp hs).2
    have h1' : isGovS s = false := by simpa using h1
    have h2 := mem_scored_none_score (List.mem_of_mem_filter hs)
    rwa [h1', if_neg (by simp)] at h2
  have hGsort : govBucket recs none = (recs.map (scoreRec none)).filter isGovS :=
    insertionSort_const _ hGscore
  have hSsort : svcBucket recs none =
      (recs.map (scoreRec none)).filter (fun s => !isGovS s) :=
    insertionSort_const _ hSscore
  rw [sort_recommendations_by_match_eq, List.take_of_length_le
    (by rw [List.length_insertionSort]; exact buildTop_length_le _ _), hGsort, hSsort]
  rw [buildTop_struct]
  have htop : ∀ s ∈ ((recs.map (scoreRec none)).filter isGovS).take 3 ++
      ((recs.map (scoreRec none)).filter (fun s => !isGovS s)).take
        (min 3 (5 - min 3 ((recs.map (scoreRec none)).filter isGovS).length)) ++
      (((recs.map (scoreRec none)).filter isGovS).drop 3).take
        (5 - (min 3 ((recs.map (scoreRec none)).filter isGovS).length +
          min (min 3 (5 - min 3 ((recs.map (scoreRec none)).filter isGovS).length))
            ((recs.map (scoreRec none)).filter (fun s => !isGovS s)).length)),
      s.skill_match_score = 10 ∨ s.skill_match_score = 0 := by
    intro s hs
    rcases List.mem_append.mp hs with h | h
    · rcases List.mem_append.mp h with h | h
      · exact Or.inl (hGscore s (List.take_subset _ _ h))
      · exact Or.inr (hSscore s (List.take_subset _ _ h))
    · exact Or.inl (hGscore s (List.drop_subset _ _ (List.take_subset _ _ h)))
  rw [insertionSort_two_valued (by norm_num : (0:ℚ) < 10) _ htop]
  rw [List.filter_append, List.filter_append, List.filter_append, List.filter_append]
  have fG1 : ∀ (n : Nat), (((recs.map (scoreRec none)).filter isGovS).take n).filter
      (fun s => decide (s.skill_match_score = 10)) =
        ((recs.map (scoreRec none)).filter isGovS).take n := by
    intro n
    apply List.filter_eq_self.mpr
    intro s hs
    simpa using hGscore s (List.take_subset _ _ hs)
  have fG1' : ∀ (n m : Nat), ((((recs.map (scoreRec none)).filter isGovS).drop m).take
      n).filter (fun s => decide (s.skill_match_score = 10)) =
        (((recs.map (scoreRec none)).filter isGovS).drop m).take n := by
    intro n m
    apply List.filter_eq_self.mpr
    intro s hs
    simpa using hGscore s (List.drop_subset _ _ (List.take_subset _ _ hs))
  have fG0 : ∀ (n : Nat), (((recs.map (scoreRec none)).filter isGovS).take n).filter
      (fun s => decide (s.skill_match_score = 0)) = [] := by
    intro n
    rw [List.filter_eq_nil_iff]
    intro s hs
    simp [hGscore s (List.take_subset _ _ hs)]
  have fG0' : ∀ (n m : Nat), ((((recs.map (scoreRec none)).filter isGovS).drop m).take
      n).filter (fun s => decide (s.skill_match_score = 0)) = [] := by
    intro n m
    rw [List.filter_eq_nil_iff]
    intro s hs
    simp [hGscore s (List.drop_subset _ _ (List.take_subset _ _ hs))]
  have fS1 : ∀ (n : Nat),
      (((recs.map (scoreRec none)).filter (fun s => !isGovS s)).take n).filter
      (fun s => decide (s.skill_match_score = 10)) = [] := by
    intro n
    rw [List.filter_eq_nil_iff]
    intro s hs
    simp [hSscore s (List.take_subset _ _ hs)]
  have fS0 : ∀ (n : Nat),
      (((recs.map (scoreRec none)).filter (fun s => !isGovS s)).take n).filter
      (fun s => decide (s.skill_match_score = 0)) =
        ((recs.map (scoreRec none)).filter (fun s => !isGovS s)).take n := by
    intro n
    apply List.filter_eq_self.mpr
    intro s hs
    simpa using hSscore s (List.take_subset _ _ hs)
  rw [fG1, fG1', fG0, fG0', fS1, fS0]
  refine ⟨((recs.map (scoreRec none)).filter isGovS).take 3 ++
      (((recs.map (scoreRec none)).filter isGovS).drop 3).take
        (5 - (min 3 ((recs.map (scoreRec none)).filter isGovS).length +
          min (min 3 (5 - min 3 ((recs.map (scoreRec none)).filter isGovS).length))
            ((recs.map (scoreRec none)).filter (fun s => !isGovS s)).length)),
    ((recs.map (scoreRec none)).filter (fun s => !isGovS s)).take
      (min 3 (5 - min 3 ((recs.map (scoreRec none)).filter isGovS).length)), ?_, ?_, ?_⟩
  · simp
  · have h1 := List.Sublist.append_left
      (List.take_sublist (5 - (min 3 ((recs.map (scoreRec none)).filter isGovS).length +
        min (min 3 (5 - min 3 ((recs.map (scoreRec none)).filter isGovS).length))
          ((recs.map (scoreRec none)).filter (fun s => !isGovS s)).length))
        (((recs.map (scoreRec none)).filter isGovS).drop 3))
      (((recs.map (scoreRec none)).filter isGovS).take 3)
    rw [List.take_append_drop] at h1
    exact h1
  · exact List.take_sublist _ _

theorem countP_not_add {α : Type} (p : α → Bool) (l : List α) :
    l.countP p + l.countP (fun a => !p a) = l.length := by
  induction l with
  | nil => simp
  | cons a t ih =>
    cases h : p a <;> simp [List.countP_cons, h] <;> omega

theorem sort_length_le (recs : List Posting) (user : Option Profile) :
    (sort_recommendations_by_match recs user).length ≤ 5 := by
  rw [sort_recommendations_by_match_eq]
  simp [List.length_take]

theorem sort_length_five (recs : List Posting) (user : Option Profile)
    (h5 : 5 ≤ recs.length) (hg : 2 ≤ recs.countP isGovP) :
    (sort_recommendations_by_match recs user).length = 5 := by
  have hG := govBucket_length recs user
  have hS := svcBucket_length recs user
  have hpart := countP_not_add isGovP recs
  have htop : (buildTop (govBucket recs user) (svcBucket recs user)).length = 5 := by
    rw [buildTop_struct]
    simp only [List.length_append, List.length_take, List.length_drop]
    omega
  rw [sort_recommendations_by_match_eq]
  simp [List.length_take, List.length_insertionSort, htop]

theorem sort_countP_big (recs : List Posting) (user : Option Profile)
    (hg : 3 ≤ recs.countP isGovP) (hs : 3 ≤ recs.countP fun r => !isGovP r) :
    (sort_recommendations_by_match recs user).length = 5 ∧
      (sort_recommendations_by_match recs user).countP isGovS = 3 ∧
      (sort_recommendations_by_match recs user).countP (fun s => !isGovS s) = 2 := by
  have hG := govBucket_length recs user
  have hS := svcBucket_length recs user
  have hgG : 3 ≤ (govBucket recs user).length := by omega
  have hsS : 3 ≤ (svcBucket recs user).length := by omega
  have hbig := buildTop_of_big hgG hsS
  have htoplen : (buildTop (govBucket recs user) (svcBucket recs user)).length = 5 := by
    rw [hbig]
    simp only [List.length_append, List.length_take]
    omega
  have hsortlen : (List.insertionSort sRel
      (buildTop (govBucket recs user) (svcBucket recs user))).length = 5 := by
    rw [List.length_insertionSort, htoplen]
  have hout : sort_recommendations_by_match recs user =
      List.insertionSort sRel (buildTop (govBucket recs user) (svcBucket recs user)) := by
    rw [sort_recommendations_by_match_eq, List.take_of_length_le (le_of_eq hsortlen)]
  have hperm := List.perm_insertionSort sRel
    (buildTop (govBucket recs user) (svcBucket recs user))
  have hcount : ∀ p : ScoredPosting → Bool,
      (sort_recommendations_by_match recs user).countP p =
        ((govBucket recs user).take 3).countP p +
          ((svcBucket recs user).take 2).countP p := by
    intro p
    rw [hout, hperm.countP_eq, hbig, List.countP_append]
  refine ⟨by rw [hout, hsortlen], ?_, ?_⟩
  · rw [hcount]
    have hall : ∀ a ∈ (govBucket recs user).take 3, isGovS a :=
      fun a ha => mem_govBucket_isGov (List.take_subset _ _ ha)
    have c2 : ((svcBucket recs user).take 2).countP isGovS = 0 :=
      List.countP_eq_zero.mpr fun a ha => by
        simp [mem_svcBucket_notGov (List.take_subset _ _ ha)]
    rw [List.countP_eq_length.mpr hall, List.length_take, c2]
    omega
  · rw [hcount]
    have c1 : ((govBucket recs user).take 3).countP (fun s => !isGovS s) = 0 :=
      List.countP_eq_zero.mpr fun a ha => by
        simp [mem_govBucket_isGov (List.take_subset _ _ ha)]
    have hall : ∀ a ∈ (svcBucket recs user).take 2, (!isGovS a) = true :=
      fun a ha => by simp [mem_svcBucket_notGov (List.take_subset _ _ ha)]
    rw [c1, List.countP_eq_length.mpr hall, List.length_take]
    omega

theorem sort_nongov_le_three (recs : List Posting) (user : Option Profile) :
    (sort_recommendations_by_match recs user).countP (fun s => !isGovS s) ≤ 3 := by
  rw [sort_recommendations_by_match_eq]
  have h1 := List.Sublist.countP_le (fun s => !isGovS s) (List.take_sublist 5
    (List.insertionSort sRel (buildTop (govBucket recs user) (svcBucket recs user))))
  refine le_trans h1 ?_
  rw [(List.perm_insertionSort sRel _).countP_eq]
  rw [buildTop_struct, List.countP_append, List.countP_append]
  have cg0 : ((govBucket recs user).take 3).countP (fun s => !isGovS s) = 0 :=
    List.countP_eq_zero.mpr fun a ha => by
      simp [mem_govBucket_isGov (List.take_subset _ _ ha)]
  have cg1 : ∀ (n m : Nat),
      (((govBucket recs user).drop m).take n).countP (fun s => !isGovS s) = 0 :=
    fun n m => List.countP_eq_zero.mpr fun a ha => by
      simp [mem_govBucket_isGov (List.drop_subset _ _ (List.take_subset _ _ ha))]
  rw [cg0, cg1]
  have hsc : ((svcBucket recs user).take
      (min 3 (5 - min 3 (govBucket recs user).length))).countP
        (fun s => !isGovS s) ≤ 3 := by
    refine le_trans (List.countP_le_length _) ?_
    rw [List.length_take]
    omega
  omega

theorem sort_length_few_gov (recs : List Posting) (user : Option Profile) :
    (sort_recommendations_by_match recs user).length ≤ recs.countP isGovP + 3 := by
  rw [sort_recommendations_by_match_eq]
  have hG := govBucket_length recs user
  rw [List.length_take, List.length_insertionSort]
  have hb : (buildTop (govBucket recs user) (svcBucket recs user)).length ≤
      recs.countP isGovP + 3 := by
    rw [buildTop_struct]
    simp only [List.length_append, List.length_take, List.length_drop]
    omega
  omega

/-! ### Claims -/

/-- C1, counterexample: a pool of five non-government postings has at
least 5 entries, yet the selector returns only 3 — there is no final
fallback to leftover non-government candidates in the code. -/
theorem claim1_counterexample :
    5 ≤ ([⟨str "private", [], 0⟩, ⟨str "private", [], 1⟩, ⟨str "private", [], 2⟩,
      ⟨str "private", [], 3⟩, ⟨str "private", [], 4⟩] : List Posting).length ∧
    (sort_recommendations_by_match
      [⟨str "private", [], 0⟩, ⟨str "private", [], 1⟩, ⟨str "private", [], 2⟩,
       ⟨str "private", [], 3⟩, ⟨str "private", [], 4⟩] none).length = 3 ∧
    (3 : Nat) ≠ 5 := by
  have hpg : (str "private" == str "government") = false := by decide
  refine ⟨by decide, ?_, by decide⟩
  norm_num [sort_recommendations_by_match, govBucket, svcBucket, scoreRec, userSkillsOf,
    calculate_skill_match_score, isGovS, sRel, buildTop, govStep, svcStep, fillStep,
    List.insertionSort, List.orderedInsert, hpg]

/-- C1 (amended): the result is assembled from up to 3 top government
entries, then other entries while under 5 total and under 3, then
leftover government entries up to the cap of 5, with no final fallback
to leftover non-government candidates; consequently a pool of at least 5
postings yields exactly 5 entries whenever it holds at least 2
government postings. -/
theorem claim1_amended (recs : List Posting) (user : Option Profile)
    (h5 : 5 ≤ recs.length) (hg : 2 ≤ recs.countP isGovP) :
    (sort_recommendations_by_match recs user).length = 5 ∧
    sort_recommendations_by_match recs user =
      (List.insertionSort sRel
        ((govBucket recs user).take 3 ++
          (svcBucket recs user).take (min 3 (5 - min 3 (govBucket recs user).length)) ++
          ((govBucket recs user).drop 3).take
            (5 - (min 3 (govBucket recs user).length +
              min (min 3 (5 - min 3 (govBucket recs user).length))
                (svcBucket recs user).length)))).take 5 :=
  ⟨sort_length_five recs user h5 hg, by
    rw [sort_recommendations_by_match_eq, buildTop_struct]⟩

/-- C1, witness for the amended statement. -/
theorem claim1_witness :
    (5 ≤ ([⟨str "government", [], 0⟩, ⟨str "government", [], 1⟩, ⟨str "private", [], 2⟩,
        ⟨str "private", [], 3⟩, ⟨str "private", [], 4⟩] : List Posting).length ∧
      2 ≤ ([⟨str "government", [], 0⟩, ⟨str "government", [], 1⟩, ⟨str "private", [], 2⟩,
        ⟨str "private", [], 3⟩, ⟨str "private", [], 4⟩] : List Posting).countP isGovP) ∧
    (sort_recommendations_by_match
      [⟨str "government", [], 0⟩, ⟨str "government", [], 1⟩, ⟨str "private", [], 2⟩,
       ⟨str "private", [], 3⟩, ⟨str "private", [], 4⟩] none).length = 5 :=
  ⟨⟨by decide, by decide⟩,
    (claim1_amended
      [⟨str "government", [], 0⟩, ⟨str "government", [], 1⟩, ⟨str "private", [], 2⟩,
       ⟨str "private", [], 3⟩, ⟨str "private", [], 4⟩] none (by decide) (by decide)).1⟩

set_option maxRecDepth 4000 in
/-- C2, counterexample: for user skill `"abcd"` and required skill
`"abc"` the similarity ratio is 6/7 (above 0.8 and below 0.9) and the
substring rule holds, but the `elif` keeps the code at 6/7 while the
claimed three-rule maximum would give 9/10. -/
theorem claim2_counterexample :
    (∀ u ∈ [str "abcd"], u ≠ str "abc") ∧
    bestFor (str "abc") [str "abcd"] 0 = 6/7 ∧
    maxOver [str "abcd"] (fun u => claimCand u (str "abc")) = 9/10 ∧
    (6/7 : ℚ) ≠ 9/10 := by
  have hm : totalMatch (str "abcd") (str "abc") = 3 := by decide
  have hl4 : (str "abcd").length = 4 := by decide
  have hl3 : (str "abc").length = 3 := by decide
  have hr : ratio (str "abcd") (str "abc") = 6/7 := by
    norm_num [ratio, hm, hl4, hl3]
  have hsyn : synAny (str "abcd") (str "abc") = false := by decide
  have hsub : substrPair (str "abcd") (str "abc") = true := by decide
  have hne : (str "abcd" == str "abc") = false := by decide
  refine ⟨by decide, ?_, ?_, by norm_num⟩
  · have hb : bestFor (str "abc") [str "abcd"] 0 =
        updateBest 0 (str "abcd") (str "abc") := by
      simp [bestFor, hne]
    rw [hb, updateBest_eq_max le_rfl]
    norm_num [candVal, hr, hsyn, max_def]
  · norm_num [maxOver, claimCand, hr, hsyn, hsub, max_def]

/-- C2 (amended): for a required skill with no exact user-skill match,
the per-skill score is the maximum over user skills of the `elif`-gated
rule value: the similarity ratio when it exceeds 0.8, otherwise 0.9 on
substring containment, combined with an independent 0.95 for a
synonym-table pair; the 0.9 substring value does not participate when
the ratio exceeds 0.8. -/
theorem claim2_amended (us : List (List Char)) (r : List Char)
    (h : ∀ u ∈ us, u ≠ r) :
    bestFor r us 0 = maxOver us (fun u => candVal u r) := by
  have hb := bestFor_acc r us 0 le_rfl (by
    intro u hu
    simpa using h u hu)
  rw [hb, max_eq_right (maxOver_nonneg _ _)]

/-- C2, witness for the amended statement: `"py"` against required
`"python"` scores 0.95 through the synonym table. -/
theorem claim2_witness :
    (∀ u ∈ [str "py"], u ≠ str "python") ∧
      bestFor (str "python") [str "py"] 0 =
        maxOver [str "py"] (fun u => candVal u (str "python")) :=
  ⟨by decide, claim2_amended [str "py"] (str "python") (by decide)⟩

/-- C3, counterexample: with an absent profile a government posting is
still boosted to a stored score of 10 (not 0) and is moved ahead of an
other-category posting that preceded it in the input. -/
theorem claim3_counterexample :
    ((sort_recommendations_by_match
        [⟨str "private", [], 0⟩, ⟨str "government", [], 1⟩] none).map
      (fun s => s.skill_match_score)) = [10, 0] ∧
    ((sort_recommendations_by_match
        [⟨str "private", [], 0⟩, ⟨str "government", [], 1⟩] none).map
      (fun s => s.post.payload)) = [1, 0] ∧
    (10 : ℚ) ≠ 0 ∧ ([1, 0] : List Nat) ≠ [0, 1] := by
  have hpg : (str "private" == str "government") = false := by decide
  have hgg : (str "government" == str "government") = true := by decide
  have heval : sort_recommendations_by_match
      [⟨str "private", [], 0⟩, ⟨str "government", [], 1⟩] none =
      [⟨⟨str "government", [], 1⟩, 10⟩, ⟨⟨str "private", [], 0⟩, 0⟩] := by
    norm_num [sort_recommendations_by_match, govBucket, svcBucket, scoreRec, userSkillsOf,
      calculate_skill_match_score, isGovS, sRel, buildTop, govStep, svcStep, fillStep,
      List.insertionSort, List.orderedInsert, hpg, hgg, min_def]
  rw [heval]
  refine ⟨rfl, rfl, by norm_num, by decide⟩

/-- C3 (amended): with an absent profile every skill-matcher score is 0,
so stored scores are 10 for government entries (0 + 10 boost) and 0
otherwise; the returned list presents the selected government entries
first, each group keeping its original input order. -/
theorem claim3_amended (recs : List Posting) :
    (∀ s ∈ sort_recommendations_by_match recs none,
        s.skill_match_score = if isGovS s = true then 10 else 0) ∧
    sort_recommendations_by_match recs none =
      (sort_recommendations_by_match recs none).filter isGovS ++
        (sort_recommendations_by_match recs none).filter (fun s => !isGovS s) ∧
    List.Sublist (((sort_recommendations_by_match recs none).filter isGovS).map
      (fun s => s.post)) (recs.filter isGovP) ∧
    List.Sublist (((sort_recommendations_by_match recs none).filter
      (fun s => !isGovS s)).map (fun s => s.post)) (recs.filter (fun r => !isGovP r)) := by
  obtain ⟨gp, sp, hout, hgp, hsp⟩ := sort_none_struct recs
  have hgov : ∀ s ∈ gp, isGovS s = true := fun s hs =>
    List.of_mem_filter (hgp.subset hs)
  have hsvc : ∀ s ∈ sp, isGovS s = false := fun s hs => by
    simpa using (List.mem_filter.mp (hsp.subset hs)).2
  have hfg : (sort_recommendations_by_match recs none).filter isGovS = gp := by
    rw [hout, List.filter_append, List.filter_eq_self.mpr hgov,
      List.filter_eq_nil_iff.mpr (fun s hs => by simp [hsvc s hs]), List.append_nil]
  have hfs : (sort_recommendations_by_match recs none).filter (fun s => !isGovS s) = sp := by
    rw [hout, List.filter_append,
      List.filter_eq_nil_iff.mpr (fun s hs => by simp [hgov s hs]),
      List.filter_eq_self.mpr (fun s hs => by simp [hsvc s hs]), List.nil_append]
  refine ⟨?_, ?_, ?_, ?_⟩
  · intro s hs
    rw [hout] at hs
    rcases List.mem_append.mp hs with h | h
    · have h10 : s.skill_match_score = 10 := by
        have := hgp.subset h
        have h1 : isGovS s = true := List.of_mem_filter this
        have h2 := mem_scored_none_score (List.mem_of_mem_filter this)
        rwa [h1, if_pos rfl] at h2
      rw [h10, if_pos (hgov s h)]
    · have h0 : s.skill_match_score = 0 := by
        have := hsp.subset h
        have h2 := mem_scored_none_score (List.mem_of_mem_filter this)
        rwa [hsvc s h, if_neg (by simp)] at h2
      rw [h0, if_neg (by simp [hsvc s h])]
  · rw [hfg, hfs, hout]
  · rw [hfg]
    have := hgp.map (fun s => s.post)
    rwa [map_post_filter_gov] at this
  · rw [hfs]
    have := hsp.map (fun s => s.post)
    rwa [map_post_filter_nongov] at this

/-- C4: with at least 3 government and at least 3 other postings the
selector returns exactly 5 entries, at least 2 from each category (in
fact exactly 3 government and 2 others). -/
theorem claim4_balanced (recs : List Posting) (user : Option Profile)
    (hg : 3 ≤ recs.countP isGovP) (hs : 3 ≤ recs.countP fun r => !isGovP r) :
    (sort_recommendations_by_match recs user).length = 5 ∧
      2 ≤ (sort_recommendations_by_match recs user).countP isGovS ∧
      2 ≤ (sort_recommendations_by_match recs user).countP (fun s => !isGovS s) := by
  obtain ⟨h1, h2, h3⟩ := sort_countP_big recs user hg hs
  exact ⟨h1, by omega, by omega⟩

/-- C4, witness. -/
theorem claim4_witness :
    (3 ≤ ([⟨str "government", [], 0⟩, ⟨str "government", [], 1⟩, ⟨str "government", [], 2⟩,
        ⟨str "private", [], 3⟩, ⟨str "private", [], 4⟩, ⟨str "private", [], 5⟩] :
          List Posting).countP isGovP ∧
      3 ≤ ([⟨str "government", [], 0⟩, ⟨str "government", [], 1⟩, ⟨str "government", [], 2⟩,
        ⟨str "private", [], 3⟩, ⟨str "private", [], 4⟩, ⟨str "private", [], 5⟩] :
          List Posting).countP fun r => !isGovP r) ∧
    ((sort_recommendations_by_match
        [⟨str "government", [], 0⟩, ⟨str "government", [], 1⟩, ⟨str "government", [], 2⟩,
         ⟨str "private", [], 3⟩, ⟨str "private", [], 4⟩, ⟨str "private", [], 5⟩]
        none).length = 5 ∧
      2 ≤ (sort_recommendations_by_match
        [⟨str "government", [], 0⟩, ⟨str "government", [], 1⟩, ⟨str "government", [], 2⟩,
         ⟨str "private", [], 3⟩, ⟨str "private", [], 4⟩, ⟨str "private", [], 5⟩]
        none).countP isGovS ∧
      2 ≤ (sort_recommendations_by_match
        [⟨str "government", [], 0⟩, ⟨str "government", [], 1⟩, ⟨str "government", [], 2⟩,
         ⟨str "private", [], 3⟩, ⟨str "private", [], 4⟩, ⟨str "private", [], 5⟩]
        none).countP fun s => !isGovS s) :=
  ⟨⟨by decide, by decide⟩,
    claim4_balanced
      [⟨str "government", [], 0⟩, ⟨str "government", [], 1⟩, ⟨str "government", [], 2⟩,
       ⟨str "private", [], 3⟩, ⟨str "private", [], 4⟩, ⟨str "private", [], 5⟩]
      none (by decide) (by decide)⟩

/-- C5: every entry of the returned list stores
`min(100, matcher score + 10)` when its category is `government` and the
unmodified matcher score otherwise. -/
theorem claim5_boost (recs : List Posting) (user : Option Profile) :
    ∀ s ∈ sort_recommendations_by_match recs user, ∃ r ∈ recs, s.post = r ∧
      s.skill_match_score =
        (if isGovP r = true
          then min 100 (calculate_skill_match_score (userSkillsOf user) r.skills user + 10)
          else calculate_skill_match_score (userSkillsOf user) r.skills user) := by
  intro s hs
  obtain ⟨r, hr, rfl⟩ := mem_sort_recommendations hs
  exact ⟨r, hr, scoreRec_post user r, scoreRec_score user r⟩

/-- C5, witness: a single government posting is stored with score
`min(100, 0 + 10) = 10`. -/
theorem claim5_witness :
    (⟨⟨str "government", [], 0⟩, 10⟩ : ScoredPosting) ∈
      sort_recommendations_by_match [⟨str "government", [], 0⟩] none ∧
    (∃ r ∈ ([⟨str "government", [], 0⟩] : List Posting),
      (⟨⟨str "government", [], 0⟩, 10⟩ : ScoredPosting).post = r ∧
      (⟨⟨str "government", [], 0⟩, 10⟩ : ScoredPosting).skill_match_score =
        (if isGovP r = true
          then min 100 (calculate_skill_match_score (userSkillsOf none) r.skills none + 10)
          else calculate_skill_match_score (userSkillsOf none) r.skills none)) := by
  have hgg : (str "government" == str "government") = true := by decide
  have heval : sort_recommendations_by_match [⟨str "government", [], 0⟩] none =
      [⟨⟨str "government", [], 0⟩, 10⟩] := by
    norm_num [sort_recommendations_by_match, govBucket, svcBucket, scoreRec, userSkillsOf,
      calculate_skill_match_score, isGovS, sRel, buildTop, govStep, svcStep, fillStep,
      List.insertionSort, List.orderedInsert, hgg, min_def]
  have hmem : (⟨⟨str "government", [], 0⟩, 10⟩ : ScoredPosting) ∈
      sort_recommendations_by_match [⟨str "government", [], 0⟩] none := by
    rw [heval]
    exact List.mem_singleton.mpr rfl
  exact ⟨hmem, claim5_boost [⟨str "government", [], 0⟩] none _ hmem⟩

/-- C6: the score is always within `[0, 100]`, and on inputs that
normalization leaves non-empty it equals
`round1(min(100, base percentage + bonus points))`. -/
theorem claim6_range (u : List Char) (rs : List (List Char)) (p : Option Profile) :
    (0 ≤ calculate_skill_match_score u rs p ∧ calculate_skill_match_score u rs p ≤ 100) ∧
    (parseSkills u ≠ [] → parseReq rs ≠ [] →
      calculate_skill_match_score u rs p =
        pyRound1 (min 100 (((parseReq rs).map fun r => bestFor r (parseSkills u) 0).sum /
          ((parseReq rs).length : ℚ) * 100 + bonusPoints p))) := by
  refine ⟨calculate_skill_match_score_bounds u rs p, ?_⟩
  intro h1 h2
  have hu : u ≠ [] := by
    intro he
    apply h1
    rw [he]
    rfl
  have hrs : rs ≠ [] := by
    intro he
    apply h2
    rw [he]
    rfl
  have g1 : (u.isEmpty || rs.isEmpty) = false := by
    simp [List.isEmpty_iff, hu, hrs]
  have g2 : ((parseSkills u).isEmpty || (parseReq rs).isEmpty) = false := by
    simp [List.isEmpty_iff, h1, h2]
  simp only [calculate_skill_match_score, g1, g2, Bool.false_eq_true, if_false]

/-- C7: the score degrades to 0 when either raw input is empty or when
normalization (comma split, trim, lower-case, drop empties) leaves
either side empty; the embedding is a total function, so no exception
can be raised. -/
theorem claim7_empty (u : List Char) (rs : List (List Char)) (p : Option Profile)
    (h : u = [] ∨ rs = [] ∨ parseSkills u = [] ∨ parseReq rs = []) :
    calculate_skill_match_score u rs p = 0 :=
  calculate_skill_match_score_zero u rs p h

/-- C7, witness. -/
theorem claim7_witness :
    (([] : List Char) = [] ∨ ([str "python"] : List (List Char)) = [] ∨
      parseSkills [] = [] ∨ parseReq [str "python"] = []) ∧
    calculate_skill_match_score [] [str "python"] none = 0 :=
  ⟨Or.inl rfl, claim7_empty [] [str "python"] none (Or.inl rfl)⟩

/-- C8: the returned list has at most 5 entries and is sorted by stored
score in descending order. -/
theorem claim8_sorted (recs : List Posting) (user : Option Profile) :
    (sort_recommendations_by_match recs user).length ≤ 5 ∧
    List.Sorted (fun a b : ScoredPosting => b.skill_match_score ≤ a.skill_match_score)
      (sort_recommendations_by_match recs user) := by
  refine ⟨sort_length_le recs user, ?_⟩
  rw [sort_recommendations_by_match_eq]
  exact (List.sorted_insertionSort sRel _).sublist (List.take_sublist 5 _)

/-- C9: adding a qualifying qualification, area of interest, or prior
internship to a profile never decreases the score, which stays at most
100. -/
theorem claim9_bonus_monotone (u : List Char) (rs : List (List Char)) (p : Profile)
    (q i n : List Char) :
    ((qualifiesEdu p.qualification = false → qualifiesEdu q = true →
        calculate_skill_match_score u rs (some p) ≤
          calculate_skill_match_score u rs (some { p with qualification := q })) ∧
      (qualifiesSector p.area_of_interest = false → qualifiesSector i = true →
        calculate_skill_match_score u rs (some p) ≤
          calculate_skill_match_score u rs (some { p with area_of_interest := i })) ∧
      (p.prior_internship ≠ str "yes" → n = str "yes" →
        calculate_skill_match_score u rs (some p) ≤
          calculate_skill_match_score u rs (some { p with prior_internship := n }))) ∧
    calculate_skill_match_score u rs (some p) ≤ 100 := by
  refine ⟨⟨?_, ?_, ?_⟩, (calculate_skill_match_score_bounds u rs (some p)).2⟩
  · intro h1 h2
    apply calculate_skill_match_score_mono_bonus
    simp only [bonusPoints, h1, h2, Bool.false_eq_true, if_false, if_true]
    linarith [le_refl ((if qualifiesSector p.area_of_interest then (3:ℚ) else 0) +
      (if p.prior_internship == str "yes" then (7:ℚ) else 0))]
  · intro h1 h2
    apply calculate_skill_match_score_mono_bonus
    simp only [bonusPoints, h1, h2, Bool.false_eq_true, if_false, if_true]
    linarith [le_refl ((if qualifiesEdu p.qualification then (5:ℚ) else 0) +
      (if p.prior_internship == str "yes" then (7:ℚ) else 0))]
  · intro h1 h2
    apply calculate_skill_match_score_mono_bonus
    have hp1 : (p.prior_internship == str "yes") = false := by
      simpa using h1
    have hp2 : (n == str "yes") = true := by
      simp [h2]
    simp only [bonusPoints, hp1, hp2, Bool.false_eq_true, if_false, if_true]
    linarith [le_refl ((if qualifiesEdu p.qualification then (5:ℚ) else 0) +
      (if qualifiesSector p.area_of_interest then (3:ℚ) else 0))]

/-- C9, witness: adding a `btech` qualification to a profile without a
qualifying one never lowers the score. -/
theorem claim9_witness :
    qualifiesEdu ([] : List Char) = false ∧ qualifiesEdu (str "btech") = true ∧
    calculate_skill_match_score (str "python") [str "python"]
        (some ⟨str "python", [], [], []⟩) ≤
      calculate_skill_match_score (str "python") [str "python"]
        (some ⟨str "python", str "btech", [], []⟩) :=
  ⟨by decide, by decide,
    (claim9_bonus_monotone (str "python") [str "python"]
      ⟨str "python", [], [], []⟩ (str "btech") [] []).1.1 (by decide) (by decide)⟩

/-- C10: the returned list never holds more than 3 non-government
entries, and with fewer than 2 government candidates in the input the
result has at most (government count + 3) entries. -/
theorem claim10_nongov_cap (recs : List Posting) (user : Option Profile) :
    (sort_recommendations_by_match recs user).countP (fun s => !isGovS s) ≤ 3 ∧
    (recs.countP isGovP < 2 →
      (sort_recommendations_by_match recs user).length ≤ recs.countP isGovP + 3) :=
  ⟨sort_nongov_le_three recs user, fun _ => sort_length_few_gov recs user⟩

end NextGen
